import Mathlib

/-!
Verification development for the pathuni PATH-management tool.

The Go sources are shallowly embedded below.  External collaborators
(the operating system, the YAML decoder, the Go standard library string
and glob primitives) are modelled explicitly:

* `FsObj`/`Sys.stat` model `os.Stat` combined with `IsDir`: a path is
  absent, a non-directory file, or a directory.  A stat failure other
  than non-existence behaves like `file` (present for the
  `os.IsNotExist` test, not a directory for the `IsDir` test).
* `Sys.expandEnv` models `os.ExpandEnv`, `Sys.cleanPath` models
  `filepath.Clean`; both are opaque environment-supplied functions.
* `Sys.currentPath` is the parsed PATH variable (`getCurrentPath`) and
  `Sys.systemPaths` the content of the system path files
  (`getSystemPaths`).
* Strings are treated as ASCII: `goToLower` models `strings.ToLower`,
  `goTrimSpace` models `strings.TrimSpace`, `goEqualFold` models
  `strings.EqualFold`, and `filepathMatch` is a direct translation of
  `filepath.Match` (with fuel supplying the termination argument that
  Go obtains from its loop structure; the fuel passed by every caller
  strictly exceeds the number of loop iterations the Go code performs).
-/

namespace Pathuni

/-- Result of `os.Stat` + `IsDir` for one path. -/
inductive FsObj where
  | missing : FsObj
  | file : FsObj
  | dir : FsObj
deriving DecidableEq

/-- The ambient operating-system snapshot used by one invocation. -/
structure Sys where
  expandEnv : String → String
  cleanPath : String → String
  stat : String → FsObj
  currentPath : List String
  systemPaths : List String

/-- ASCII model of the per-character lowering done by `strings.ToLower`. -/
def goLowerChar (c : Char) : Char :=
  if 65 ≤ c.toNat ∧ c.toNat ≤ 90 then Char.ofNat (c.toNat + 32) else c

/-- ASCII model of `strings.ToLower`. -/
def goToLower (s : String) : String :=
  ⟨s.data.map goLowerChar⟩

/-- Model of `strings.EqualFold` on ASCII strings. -/
def goEqualFold (a b : String) : Bool :=
  goToLower a == goToLower b

/-- White space recognised by `strings.TrimSpace` in the ASCII range. -/
def goIsSpace (c : Char) : Bool :=
  c = ' ' || c = '\t' || c = '\n' || c = '\r' ||
    c = Char.ofNat 11 || c = Char.ofNat 12

/-- Model of `strings.TrimSpace`. -/
def goTrimSpace (s : String) : String :=
  ⟨((s.data.dropWhile goIsSpace).reverse.dropWhile goIsSpace).reverse⟩

/-- Character-level splitting used to model `strings.Split` with a
one-character separator. -/
def splitOnChar (sep : Char) : List Char → List (List Char)
  | [] => [[]]
  | c :: rest =>
    let r := splitOnChar sep rest
    if c = sep then [] :: r
    else
      match r with
      | h :: t => (c :: h) :: t
      | [] => [[c]]

/-- Model of `strings.Split s (String.singleton sep)`. -/
def goSplit (s : String) (sep : Char) : List String :=
  (splitOnChar sep s.data).map fun cs => ⟨cs⟩

/-! ### `path/filepath` glob matching (`filepath.Match`)

Direct translation of the Go standard library matcher.  `Except Unit`
mirrors the `ErrBadPattern` error channel.  The separator is `/`. -/

/-- Leading-star stripping at the top of `scanChunk`. -/
def stripStars (p : List Char) (star : Bool) : Bool × List Char :=
  match p with
  | c :: rest => if c = '*' then stripStars rest true else (star, p)
  | [] => (star, [])

/-- The scan loop of `scanChunk`: split off one chunk, tracking the
`inrange` flag and backslash escapes exactly as the Go loop does. -/
def chunkScan (p : List Char) (inrange : Bool) : List Char × List Char :=
  match p with
  | [] => ([], [])
  | c :: rest =>
    if c = '\\' then
      match rest with
      | d :: rest2 =>
        let (a, b) := chunkScan rest2 inrange
        (c :: d :: a, b)
      | [] =>
        let (a, b) := chunkScan [] inrange
        (c :: a, b)
    else if c = '[' then
      let (a, b) := chunkScan rest true
      (c :: a, b)
    else if c = ']' then
      let (a, b) := chunkScan rest false
      (c :: a, b)
    else if c = '*' then
      if inrange then
        let (a, b) := chunkScan rest inrange
        (c :: a, b)
      else ([], c :: rest)
    else
      let (a, b) := chunkScan rest inrange
      (c :: a, b)

/-- `scanChunk`: strip leading stars, then split off the next chunk. -/
def scanChunk (pattern : List Char) : Bool × List Char × List Char :=
  let (star, p) := stripStars pattern false
  let (chunk, rest) := chunkScan p false
  (star, chunk, rest)

/-- `getEsc`: read one (possibly escaped) class character.  `none` is
the `ErrBadPattern` outcome. -/
def getEsc (chunk : List Char) : Option (Char × List Char) :=
  match chunk with
  | [] => none
  | c :: rest =>
    if c = '-' ∨ c = ']' then none
    else if c = '\\' then
      match rest with
      | [] => none
      | d :: rest2 => if rest2 = [] then none else some (d, rest2)
    else if rest = [] then none else some (c, rest)

/-- The range-parsing loop inside the `[` case of `matchChunk`.
Returns the accumulated match flag and the chunk remainder after the
closing bracket. -/
def parseRanges (fuel : Nat) (chunk : List Char) (r : Char) (acc : Bool)
    (nrange : Nat) : Except Unit (Bool × List Char) :=
  match fuel with
  | 0 => .error ()
  | fuel + 1 =>
    match chunk with
    | ']' :: rest =>
      if nrange > 0 then .ok (acc, rest)
      else .error ()
    | _ =>
      match getEsc chunk with
      | none => .error ()
      | some (lo, c1) =>
        match c1 with
        | '-' :: c1tail =>
          match getEsc c1tail with
          | none => .error ()
          | some (hi, c2) =>
            parseRanges fuel c2 r (acc || (decide (lo ≤ r) && decide (r ≤ hi)))
              (nrange + 1)
        | _ =>
          parseRanges fuel c1 r (acc || (decide (lo ≤ r) && decide (r ≤ lo)))
            (nrange + 1)

/-- `matchChunk`: match a chunk against the head of `s`.  `.ok none`
is the failed-match outcome, `.ok (some rest)` the successful one. -/
def matchChunk (fuel : Nat) (chunk s : List Char) (failed : Bool) :
    Except Unit (Option (List Char)) :=
  match fuel with
  | 0 => .error ()
  | fuel + 1 =>
    match chunk with
    | [] => .ok (if failed then none else some s)
    | c :: rest =>
      let failed := failed || s.isEmpty
      if c = '[' then
        let r := if failed then Char.ofNat 0 else s.headD (Char.ofNat 0)
        let s2 := if failed then s else s.tail
        let (negated, chunk2) :=
          match rest with
          | '^' :: t => (true, t)
          | _ => (false, rest)
        match parseRanges (chunk2.length + 1) chunk2 r false 0 with
        | .error _ => .error ()
        | .ok (m, chunkRest) =>
          matchChunk fuel chunkRest s2 (failed || (m == negated))
      else if c = '?' then
        if failed then matchChunk fuel rest s true
        else
          match s with
          | sc :: srest => matchChunk fuel rest srest (decide (sc = '/'))
          | [] => matchChunk fuel rest s true
      else if c = '\\' then
        match rest with
        | [] => .error ()
        | d :: rest2 =>
          if failed then matchChunk fuel rest2 s true
          else
            match s with
            | sc :: srest => matchChunk fuel rest2 srest (decide (d ≠ sc))
            | [] => matchChunk fuel rest2 s true
      else
        if failed then matchChunk fuel rest s true
        else
          match s with
          | sc :: srest => matchChunk fuel rest srest (decide (c ≠ sc))
          | [] => matchChunk fuel rest s true

/-- The trailing pattern-syntax check that `Match` performs before
returning `false`. -/
def matchFinish (fuel : Nat) (pattern : List Char) : Except Unit Bool :=
  match fuel with
  | 0 => .error ()
  | fuel + 1 =>
    match pattern with
    | [] => .ok false
    | _ =>
      let (_, chunk, rest) := scanChunk pattern
      match matchChunk (chunk.length + 1) chunk chunk false with
      | .error _ => .error ()
      | .ok _ => matchFinish fuel rest

mutual

/-- The outer `Pattern` loop of `filepath.Match`. -/
def goMatchF (fuel : Nat) (pattern name : List Char) : Except Unit Bool :=
  match fuel with
  | 0 => .error ()
  | fuel + 1 =>
    match pattern with
    | [] => .ok name.isEmpty
    | _ =>
      let (star, chunk, rest) := scanChunk pattern
      if star && chunk.isEmpty then .ok (!name.contains '/')
      else
        match matchChunk (chunk.length + 1) chunk name false with
        | .error _ => .error ()
        | .ok (some t) =>
          if t.isEmpty || !rest.isEmpty then goMatchF fuel rest t
          else if star then tryStarF fuel chunk rest name
          else matchFinish (rest.length + 1) rest
        | .ok none =>
          if star then tryStarF fuel chunk rest name
          else matchFinish (rest.length + 1) rest

/-- The star-backtracking loop of `filepath.Match`: retry the chunk at
each later position of `name`, stopping at a separator. -/
def tryStarF (fuel : Nat) (chunk rest name : List Char) : Except Unit Bool :=
  match fuel with
  | 0 => .error ()
  | fuel + 1 =>
    match name with
    | [] => matchFinish (rest.length + 1) rest
    | c :: nrest =>
      if c = '/' then matchFinish (rest.length + 1) rest
      else
        match matchChunk (chunk.length + 1) chunk nrest false with
        | .error _ => .error ()
        | .ok (some t) =>
          if rest.isEmpty && !t.isEmpty then tryStarF fuel chunk rest nrest
          else goMatchF fuel rest t
        | .ok none => tryStarF fuel chunk rest nrest

end

/-- `filepath.Match pattern name`.  The fuel strictly exceeds the
number of outer-loop iterations the Go code can perform (the pattern
shrinks on every `continue` and the name shrinks inside the star
loop). -/
def filepathMatch (pattern name : String) : Except Unit Bool :=
  goMatchF ((pattern.data.length + 1) * (name.data.length + 2))
    pattern.data name.data

/-! ### Tag grammar and matcher (`tag.go`, wildcard-capable revision) -/

/-- `isWildcardTag`: the tag contains one of the characters of the Go
string literal passed to `strings.ContainsAny`. -/
def isWildcardTag (tag : String) : Bool :=
  tag.data.any (fun c => c = '*' || c = '?' || c = '[' || c = ']')

/-- Acceptance of the literal-tag regular expression
`[a-zA-Z][a-zA-Z0-9_]` with 2 to 19 repetitions of the second class. -/
def tagRegexAccepts (tag : String) : Bool :=
  match tag.data with
  | [] => false
  | c :: rest =>
    (('a' ≤ c && c ≤ 'z') || ('A' ≤ c && c ≤ 'Z')) &&
      rest.all (fun d =>
        ('a' ≤ d && d ≤ 'z') || ('A' ≤ d && d ≤ 'Z') ||
          ('0' ≤ d && d ≤ '9') || d = '_') &&
      decide (2 ≤ rest.length) && decide (rest.length ≤ 19)

/-- `validateTag`: wildcard tags are checked for glob well-formedness
via `filepath.Match tag "test"`, literal tags against the regex. -/
def validateTag (tag : String) : Except String Unit :=
  if isWildcardTag tag then
    match filepathMatch tag "test" with
    | .error _ => .error ("invalid wildcard pattern " ++ tag)
    | .ok _ => .ok ()
  else if tagRegexAccepts tag then .ok ()
  else
    .error ("invalid tag " ++ tag ++
      ": tags must be 3-20 characters, start with a letter, and contain only letters, numbers, and underscores")

/-- Loop body of `validateTags`: case-insensitive duplicate detection
via the `seen` set, then individual validation. -/
def validateTagsLoop (context : String) (seen : List String) :
    List String → Except String Unit
  | [] => .ok ()
  | tag :: rest =>
    let tagLower := goToLower tag
    if tagLower ∈ seen then .error ("duplicate tag " ++ tag ++ " in " ++ context)
    else
      match validateTag tag with
      | .error e => .error (e ++ " in " ++ context)
      | .ok _ => validateTagsLoop context (tagLower :: seen) rest

/-- `validateTags`: empty tag lists are allowed (untagged). -/
def validateTags (tags : List String) (context : String) : Except String Unit :=
  if tags.isEmpty then .ok ()
  else validateTagsLoop context [] tags

/-- `TagFilter`: OR groups of AND conditions for include and exclude. -/
structure TagFilter where
  Include : List (List String)
  Exclude : List (List String)

/-- The AND part of `parseTagFilter`: split one OR group on `+`,
trimming each member; an empty member is an error. -/
def parseAndGroup (filter : String) : List String → Except String (List String)
  | [] => .ok []
  | t :: rest =>
    let t2 := goTrimSpace t
    if t2 = "" then .error ("empty tag in filter " ++ filter)
    else
      match validateTag t2 with
      | .error e => .error ("invalid tag in filter " ++ filter ++ ": " ++ e)
      | .ok _ =>
        match parseAndGroup filter rest with
        | .error e => .error e
        | .ok g => .ok (t2 :: g)

/-- The OR part of `parseTagFilter`: trimmed empty groups are skipped,
non-empty AND groups are collected in order. -/
def parseOrGroups (filter : String) :
    List String → Except String (List (List String))
  | [] => .ok []
  | g :: rest =>
    let g2 := goTrimSpace g
    if g2 = "" then parseOrGroups filter rest
    else
      match parseAndGroup filter (goSplit g2 '+') with
      | .error e => .error e
      | .ok andGroup =>
        match parseOrGroups filter rest with
        | .error e => .error e
        | .ok groups =>
          .ok (if andGroup.isEmpty then groups else andGroup :: groups)

/-- `parseTagFilter`: split on `,` for OR groups and on `+` inside a
group for AND members. -/
def parseTagFilter (filter : String) : Except String (List (List String)) :=
  if filter = "" then .ok []
  else parseOrGroups filter (goSplit filter ',')

/-- `parseTagFlags`: build a `TagFilter` from the two CLI flags. -/
def parseTagFlags (includeFlag excludeFlag : String) : Except String TagFilter :=
  match (if includeFlag = "" then .ok [] else parseTagFilter includeFlag :
      Except String (List (List String))) with
  | .error e => .error ("invalid --tags-include flag: " ++ e)
  | .ok inc =>
    match (if excludeFlag = "" then .ok [] else parseTagFilter excludeFlag :
        Except String (List (List String))) with
    | .error e => .error ("invalid --tags-exclude flag: " ++ e)
    | .ok exc => .ok ⟨inc, exc⟩

/-- `hasMatchingTag`: does any path tag match the pattern, using
case-insensitive glob matching for wildcard patterns and
case-insensitive equality otherwise. -/
def hasMatchingTag (pathTags : List String) (pattern : String) : Bool :=
  let hasWildcard := isWildcardTag pattern
  pathTags.any fun tag =>
    if hasWildcard then
      match filepathMatch (goToLower pattern) (goToLower tag) with
      | .ok true => true
      | _ => false
    else goEqualFold pattern tag

/-- `matchesTagConditions`: OR over groups, AND inside each group; an
empty condition list never matches. -/
def matchesTagConditions (pathTags : List String)
    (conditions : List (List String)) : Bool :=
  if conditions.isEmpty then false
  else conditions.any fun andGroup =>
    andGroup.all fun requiredTag => hasMatchingTag pathTags requiredTag

/-- `shouldIncludePath`: untagged immunity, then exclude wins, then
include must match when present. -/
def shouldIncludePath (pathTags : List String) (isExplicitlyTagged : Bool)
    (filter : TagFilter) : Bool :=
  if pathTags.isEmpty && !isExplicitlyTagged then true
  else if !filter.Exclude.isEmpty && matchesTagConditions pathTags filter.Exclude then
    false
  else if !filter.Include.isEmpty then matchesTagConditions pathTags filter.Include
  else true

/-- A skip reason for the dry-run report (`SkipReason`).  The Go field
`Type` is called `Kind` here because `Type` is reserved in Lean. -/
structure SkipReason where
  Kind : String
  Detail : String
deriving DecidableEq

/-- The inner pair search of `getExcludeReason`: the first path tag /
exclude tag pair where the single path tag matches. -/
def findExcludePair (pathTags andGroup : List String) :
    Option (String × String) :=
  pathTags.findSome? fun pathTag =>
    andGroup.findSome? fun excludeTag =>
      if hasMatchingTag [pathTag] excludeTag then some (pathTag, excludeTag)
      else none

/-- `getExcludeReason`: the first exclude group that fully matches and
yields a reportable pair produces the reason text. -/
def getExcludeReason (pathTags : List String) :
    List (List String) → String
  | [] => ""
  | andGroup :: rest =>
    if andGroup.all (fun requiredTag => hasMatchingTag pathTags requiredTag) then
      match findExcludePair pathTags andGroup with
      | some (pathTag, excludeTag) => pathTag ++ " = " ++ excludeTag
      | none => getExcludeReason pathTags rest
    else getExcludeReason pathTags rest

/-- `formatTagsForDisplay`: at most two tags, then a `(+N)` counter. -/
def formatTagsForDisplay (tags : List String) : String :=
  match tags with
  | [] => ""
  | [a] => a
  | [a, b] => a ++ "," ++ b
  | a :: b :: rest => a ++ "," ++ b ++ " (+" ++ toString rest.length ++ ")"

/-- `formatTagConditions`: OR groups joined by `,`, AND members by `+`. -/
def formatTagConditions (conditions : List (List String)) : String :=
  String.intercalate "," (conditions.map fun andGroup =>
    String.intercalate "+" andGroup)

/-- `getIncludeFailureReason`: empty when the include conditions match,
otherwise a `!=` comparison line. -/
def getIncludeFailureReason (pathTags : List String)
    (includeConditions : List (List String)) : String :=
  if matchesTagConditions pathTags includeConditions then ""
  else
    let conditionStr := formatTagConditions includeConditions
    match pathTags with
    | [] => "no tags != " ++ conditionStr
    | _ => formatTagsForDisplay pathTags ++ " != " ++ conditionStr

/-- `getPathSkipReasons`: the reasons a path is skipped by filtering;
the empty list models the `nil` (included) result. -/
def getPathSkipReasons (pathTags : List String) (isExplicitlyTagged : Bool)
    (filter : TagFilter) : List SkipReason :=
  if pathTags.isEmpty && !isExplicitlyTagged then []
  else
    let er := getExcludeReason pathTags filter.Exclude
    if !filter.Exclude.isEmpty && er != "" then [⟨"tags", er⟩]
    else
      let ir := getIncludeFailureReason pathTags filter.Include
      if !filter.Include.isEmpty && ir != "" then [⟨"tags", ir⟩]
      else []

/-! ### Configuration data model and entry extraction (`config.go`) -/

/-- One raw YAML path item as seen by `extractPathEntries`: either a
plain string or an object with a path and an optional tags field.  The
YAML decoder itself is an external collaborator, so the ill-typed
shapes it rejects are not represented. -/
inductive PathItem where
  | str (path : String) : PathItem
  | obj (path : String) (tags : Option (List String)) : PathItem

/-- `PathEntry`: a `none` tags field means the field was absent in the
configuration (inheritance applies); `some` means it was present. -/
structure PathEntry where
  Path : String
  Tags : Option (List String)

/-- `GetEffectiveTags`: explicit tags when present (even empty),
otherwise the platform tags. -/
def PathEntry.GetEffectiveTags (pe : PathEntry) (platformTags : List String) :
    List String :=
  match pe.Tags with
  | some tags => tags
  | none => platformTags

/-- `IsExplicitlyTagged`: true iff the tags field was present. -/
def PathEntry.IsExplicitlyTagged (pe : PathEntry) : Bool :=
  pe.Tags.isSome

/-- `ShellConfig`: the per-shell injection directive. -/
structure ShellConfig where
  IncludeSystemPaths : Bool

/-- `PlatformConfig`: platform tags, path items and the optional
PowerShell injection directive. -/
structure PlatformConfig where
  Tags : List String
  Paths : List PathItem
  PowerShell : Option ShellConfig

/-- `Config`: the three platform sections. -/
structure Config where
  All : PlatformConfig
  Linux : PlatformConfig
  MacOS : PlatformConfig

/-- `extractPathEntries`: convert raw items to `PathEntry`s; an object
with a present tags field (even empty) gets explicit tags after
validation, a plain string or a tagless object inherits. -/
def extractPathEntries (items : List PathItem) (context : String) :
    Except String (List PathEntry) :=
  match items with
  | [] => .ok []
  | .str path :: rest =>
    match extractPathEntries rest context with
    | .error e => .error e
    | .ok es => .ok (⟨path, none⟩ :: es)
  | .obj path none :: rest =>
    match extractPathEntries rest context with
    | .error e => .error e
    | .ok es => .ok (⟨path, none⟩ :: es)
  | .obj path (some tags) :: rest =>
    match validateTags tags (context ++ " (path: " ++ path ++ ")") with
    | .error e => .error e
    | .ok _ =>
      match extractPathEntries rest context with
      | .error e => .error e
      | .ok es => .ok (⟨path, some tags⟩ :: es)

/-- `validateConfig`: platform-level tag validation for the three
sections. -/
def validateConfig (cfg : Config) : Except String Unit :=
  match validateTags cfg.All.Tags "all.tags" with
  | .error e => .error e
  | .ok _ =>
    match validateTags cfg.Linux.Tags "linux.tags" with
    | .error e => .error e
    | .ok _ => validateTags cfg.MacOS.Tags "macos.tags"

/-! ### Shell-injected paths (`helpers.go`) -/

/-- `getShellSpecificPaths`: the system path-file entries contributed
when the PowerShell injection directive is enabled. -/
def getShellSpecificPaths (sys : Sys) (shell : String)
    (platformConfig : PlatformConfig) : List String :=
  if shell = "powershell" then
    match platformConfig.PowerShell with
    | some sc => if sc.IncludeSystemPaths then sys.systemPaths else []
    | none => []
  else []

/-- `countValidSystemPaths`: how many system path-file entries expand
to existing directories, when the injection directive is enabled. -/
def countValidSystemPaths (sys : Sys) (shell : String)
    (platformConfig : PlatformConfig) : Nat :=
  if shell = "powershell" then
    match platformConfig.PowerShell with
    | some sc =>
      if sc.IncludeSystemPaths then
        (sys.systemPaths.filter fun p =>
          decide (sys.stat (sys.expandEnv p) = .dir)).length
      else 0
    | none => 0
  else 0

/-! ### Evaluators (`config.go`) -/

/-- A skipped path together with its reasons (`SkippedPath`). -/
structure SkippedPath where
  Path : String
  Reasons : List SkipReason
deriving DecidableEq

/-- The comprehensive dry-run evaluation result (`EvaluationResult`). -/
structure EvaluationResult where
  IncludedPaths : List String
  SkippedPaths : List SkippedPath
  TotalPaths : Nat
deriving DecidableEq

/-- One loop iteration of the `processPlatformPaths` helper inside
`EvaluateConfigWithReasons`: existence is tested first on the expanded
path, and only entries that pass it reach tag classification. -/
def processEntryWithReasons (sys : Sys) (tagFilter : TagFilter)
    (platformTags : List String) (r : EvaluationResult) (entry : PathEntry) :
    EvaluationResult :=
  let r := { r with TotalPaths := r.TotalPaths + 1 }
  let expanded := sys.expandEnv entry.Path
  if sys.stat expanded = .missing then
    { r with SkippedPaths :=
        r.SkippedPaths ++ [⟨expanded, [⟨"not_found", "not found"⟩]⟩] }
  else
    let effectiveTags := entry.GetEffectiveTags platformTags
    let reasons :=
      getPathSkipReasons effectiveTags entry.IsExplicitlyTagged tagFilter
    if reasons.isEmpty then
      { r with IncludedPaths := r.IncludedPaths ++ [expanded] }
    else
      { r with SkippedPaths := r.SkippedPaths ++ [⟨expanded, reasons⟩] }

/-- `processPlatformPaths`: extract the section entries and run each
through the per-entry classification. -/
def processPlatformWithReasons (sys : Sys) (tagFilter : TagFilter)
    (platformConfig : PlatformConfig) (platformName : String)
    (r : EvaluationResult) : Except String EvaluationResult :=
  match extractPathEntries platformConfig.Paths (platformName ++ ".paths") with
  | .error e => .error e
  | .ok entries =>
    .ok (entries.foldl (processEntryWithReasons sys tagFilter
      platformConfig.Tags) r)

/-- `EvaluateConfigWithReasons`: the dry-run v2 evaluator.  It walks
the `all` section and then the active platform section; it takes the
shell argument like the Go function but, unlike `EvaluateConfigDetailed`,
never consults it: it does not add shell-injected entries. -/
def EvaluateConfigWithReasons (sys : Sys) (cfg : Config)
    (platform _shell : String) (tagFilter : TagFilter) :
    Except String EvaluationResult :=
  match validateConfig cfg with
  | .error e => .error ("config validation error: " ++ e)
  | .ok _ =>
    match processPlatformWithReasons sys tagFilter cfg.All "all" ⟨[], [], 0⟩ with
    | .error e => .error e
    | .ok r1 =>
      if platform = "macOS" then
        processPlatformWithReasons sys tagFilter cfg.MacOS "macos" r1
      else if platform = "Linux" then
        processPlatformWithReasons sys tagFilter cfg.Linux "linux" r1
      else .ok r1

/-- `PathStatus`: the detailed evaluation record for one entry. -/
structure PathStatus where
  Path : String
  Tags : List String
  Exists : Bool
  Included : Bool
  PassesFilter : Bool
deriving DecidableEq

/-- The `processEntries` helper of `EvaluateConfigDetailed`: expansion,
normalization, directory-existence, and filter evaluation independent
of existence. -/
def processEntriesDetailed (sys : Sys) (tagFilter : TagFilter)
    (entries : List PathEntry) (platformTags : List String) :
    List PathStatus :=
  entries.map fun entry =>
    let expanded := sys.expandEnv entry.Path
    let resolved := sys.cleanPath expanded
    let ex := decide (sys.stat resolved = .dir)
    let effectiveTags := entry.GetEffectiveTags platformTags
    let passes :=
      shouldIncludePath effectiveTags entry.IsExplicitlyTagged tagFilter
    ⟨resolved, effectiveTags, ex, ex && passes, passes⟩

/-- `EvaluateConfigDetailed`: the detailed evaluator.  It walks the
`all` section, the active platform section, and the shell-injected
entries (as untagged `PathEntry`s under the platform tags). -/
def EvaluateConfigDetailed (sys : Sys) (cfg : Config)
    (platform shell : String) (tagFilter : TagFilter) :
    Except String (List PathStatus × Nat) :=
  match validateConfig cfg with
  | .error e => .error ("config validation error: " ++ e)
  | .ok _ =>
    match extractPathEntries cfg.All.Paths "all section" with
    | .error e => .error ("failed to parse config: " ++ e)
    | .ok allEntries =>
      let base := processEntriesDetailed sys tagFilter allEntries cfg.All.Tags
      if platform = "Linux" then
        match extractPathEntries cfg.Linux.Paths "linux section" with
        | .error e => .error ("failed to parse config: " ++ e)
        | .ok entries =>
          let shellEntries := (getShellSpecificPaths sys shell cfg.Linux).map
            fun p => (⟨p, none⟩ : PathEntry)
          .ok (base ++ processEntriesDetailed sys tagFilter entries cfg.Linux.Tags
              ++ processEntriesDetailed sys tagFilter shellEntries cfg.Linux.Tags,
            countValidSystemPaths sys shell cfg.Linux)
      else if platform = "macOS" then
        match extractPathEntries cfg.MacOS.Paths "macos section" with
        | .error e => .error ("failed to parse config: " ++ e)
        | .ok entries =>
          let shellEntries := (getShellSpecificPaths sys shell cfg.MacOS).map
            fun p => (⟨p, none⟩ : PathEntry)
          .ok (base ++ processEntriesDetailed sys tagFilter entries cfg.MacOS.Tags
              ++ processEntriesDetailed sys tagFilter shellEntries cfg.MacOS.Tags,
            countValidSystemPaths sys shell cfg.MacOS)
      else .ok (base, 0)

/-- `EvaluateConfig`: backward-compatible reduction of the detailed
statuses to flat included and skipped lists. -/
def EvaluateConfig (sys : Sys) (cfg : Config) (platform shell : String)
    (tagFilter : TagFilter) :
    Except String (List String × List String × Nat) :=
  match EvaluateConfigDetailed sys cfg platform shell tagFilter with
  | .error e => .error e
  | .ok (statuses, systemPathsCount) =>
    .ok ((statuses.filter fun st => st.Included).map (fun st => st.Path),
      (statuses.filter fun st => !st.Included).map (fun st => st.Path),
      systemPathsCount)

/-- The classification loop of `PrintEvaluationReport`: included, then
not-found (existence wins over filtering), then filtered-by-tags. -/
def classifyReport : List PathStatus → List String × List String × List String
  | [] => ([], [], [])
  | st :: rest =>
    let (included, notFound, filteredByTags) := classifyReport rest
    if st.Included then (st.Path :: included, notFound, filteredByTags)
    else if !st.Exists then (included, st.Path :: notFound, filteredByTags)
    else (included, notFound, st.Path :: filteredByTags)

/-! ### Scope and prune resolution (`paths.go`) -/

/-- The seen-set loop of `dedupePreserveOrder`; list membership models
the Go map. -/
def dedupeLoop (seen : List String) : List String → List String
  | [] => []
  | x :: xs =>
    if x ∈ seen then dedupeLoop seen xs
    else x :: dedupeLoop (x :: seen) xs

/-- `dedupePreserveOrder`: drop duplicates, keeping first occurrences. -/
def dedupePreserveOrder (l : List String) : List String :=
  dedupeLoop [] l

/-- `resolveSystemPaths`: current PATH entries, deduped. -/
def resolveSystemPaths (sys : Sys) : List String :=
  dedupePreserveOrder sys.currentPath

/-- `mergeFull`: dedupe both sides, concatenate in the requested
precedence order, dedupe again. -/
def mergeFull (pathuni system : List String) (pathuniFirst : Bool) :
    List String :=
  let p := dedupePreserveOrder pathuni
  let s := dedupePreserveOrder system
  dedupePreserveOrder (if pathuniFirst then p ++ s else s ++ p)

/-- `filterExisting`: keep only entries whose expansion is an existing
directory (the expanded form is what is kept). -/
def filterExisting (sys : Sys) (paths : List String) : List String :=
  paths.filterMap fun p =>
    let expanded := sys.expandEnv p
    if sys.stat expanded = .dir then some expanded else none

/-- The prune switch of `resolvePathuniPaths`: existing-only for
`pathuni`/`all`, filter-passing regardless of existence for
`none`/`system`, with the existing-only fallback otherwise. -/
def prunePathStatuses (statuses : List PathStatus) (prune : String) :
    List String :=
  if prune = "pathuni" ∨ prune = "all" then
    (statuses.filter fun st => st.Included).map fun st => st.Path
  else if prune = "none" ∨ prune = "system" then
    (statuses.filter fun st => st.PassesFilter).map fun st => st.Path
  else (statuses.filter fun st => st.Included).map fun st => st.Path

/-- `resolvePathuniPaths`: detailed evaluation, prune switch, dedupe. -/
def resolvePathuniPaths (sys : Sys) (cfg : Config) (platform shell : String)
    (tagFilter : TagFilter) (prune : String) : Except String (List String) :=
  match EvaluateConfigDetailed sys cfg platform shell tagFilter with
  | .error e => .error e
  | .ok (statuses, _) => .ok (dedupePreserveOrder (prunePathStatuses statuses prune))

/-! ### Shell rendering and `runInit` (`shell.go`, `main.go`) -/

/-- The supported shell names (`supportedShells`). -/
def shellIsValid (s : String) : Bool :=
  s = "bash" || s = "zsh" || s = "sh" || s = "dash" || s = "ash" ||
    s = "ksh" || s = "mksh" || s = "yash" || s = "fish" || s = "powershell"

/-- `osIsValid`. -/
def osIsValid (osName : String) : Bool :=
  osName = "macOS" || osName = "Linux"

/-- `isValidScope`. -/
def isValidScope (scope : String) : Bool :=
  scope = "system" || scope = "pathuni" || scope = "full"

/-- `isValidPrune`. -/
def isValidPrune (p : String) : Bool :=
  p = "none" || p = "pathuni" || p = "system" || p = "all"

/-- `renderBash`. -/
def renderBash (paths : List String) : String :=
  "export PATH=\"" ++ String.intercalate ":" paths ++ "\""

/-- `renderFish`. -/
def renderFish (paths : List String) : String :=
  "set -gx PATH " ++ String.intercalate " " paths

/-- `renderPwsh`. -/
def renderPwsh (paths : List String) : String :=
  "$env:PATH = \"" ++ String.intercalate ":" paths ++ "\""

/-- `renderBashDefer`. -/
def renderBashDefer (paths : List String) : String :=
  let joined := String.intercalate ":" paths
  if joined = "" then "export PATH=\"$\x7bPATH\x7d\""
  else "export PATH=\"" ++ joined ++ ":$\x7bPATH\x7d\""

/-- `renderFishDefer`. -/
def renderFishDefer (paths : List String) : String :=
  let joined := String.intercalate " " paths
  if joined = "" then "set -gx PATH $PATH"
  else "set -gx PATH " ++ joined ++ " $PATH"

/-- `renderPwshDefer`. -/
def renderPwshDefer (paths : List String) : String :=
  let joined := String.intercalate ":" paths
  if joined = "" then "$env:PATH = \"$env:PATH\""
  else "$env:PATH = \"" ++ joined ++ ":$env:PATH\""

/-- The `renderers` map; `runInit` consults it only for valid shells. -/
def renderers (shell : String) : List String → String :=
  if shell = "fish" then renderFish
  else if shell = "powershell" then renderPwsh
  else renderBash

/-- The `renderersDefer` map. -/
def renderersDefer (shell : String) : List String → String :=
  if shell = "fish" then renderFishDefer
  else if shell = "powershell" then renderPwshDefer
  else renderBashDefer

/-- `runInit`: flag validation, the defer-mode gate, then the scope
switch.  `os.Exit` error paths are modelled as `.error`; the printed
command is the `.ok` payload.  The tag filter is taken already parsed
(flag parsing precedes this logic in the CLI layer). -/
def runInit (sys : Sys) (cfg : Config) (osName shellName : String)
    (tagFilter : TagFilter) (scope prune : String) (deferEnv : Bool) :
    Except String String :=
  if !osIsValid osName then
    .error ("Unsupported OS " ++ osName)
  else if !shellIsValid shellName then
    .error ("Unsupported shell " ++ shellName)
  else if !isValidScope scope then
    .error ("Error: Invalid scope option " ++ scope ++
      ". Use system, pathuni, or full")
  else if !isValidPrune prune then
    .error ("Error: Invalid prune option " ++ prune ++
      ". Use none, pathuni, system, or all")
  else if deferEnv then
    if scope ≠ "full" then
      .error "Error: --defer-env is only valid with --scope=full"
    else if prune = "system" || prune = "all" then
      .error ("Error: --prune=" ++ prune ++
        " is incompatible with --defer-env (system PATH is not expanded)")
    else
      match resolvePathuniPaths sys cfg osName shellName tagFilter prune with
      | .error e => .error ("Error: " ++ e)
      | .ok pu => .ok (renderersDefer shellName pu)
  else
    match scope with
    | "system" =>
      let p := resolveSystemPaths sys
      let p := if prune = "system" || prune = "all" then filterExisting sys p
        else p
      .ok (renderers shellName p)
    | "pathuni" =>
      match resolvePathuniPaths sys cfg osName shellName tagFilter prune with
      | .error e => .error ("Error: " ++ e)
      | .ok p => .ok (renderers shellName p)
    | _ =>
      let s0 := resolveSystemPaths sys
      let s1 := if prune = "system" || prune = "all" then filterExisting sys s0
        else s0
      match resolvePathuniPaths sys cfg osName shellName tagFilter prune with
      | .error e => .error ("Error: " ++ e)
      | .ok pu => .ok (renderers shellName (mergeFull pu s1 true))

/-! ## Theorems -/

/-! ### Character lowering -/

theorem charToNat_ofNat_lt (n : Nat) (h : n < 55296) :
    (Char.ofNat n).toNat = n := by
  unfold Char.ofNat
  rw [dif_pos (Or.inl h)]
  simp [Char.ofNatAux, Char.toNat, UInt32.toNat, BitVec.toNat_ofNatLt]

theorem goLowerChar_toNat (c : Char) :
    (goLowerChar c).toNat =
      if 65 ≤ c.toNat ∧ c.toNat ≤ 90 then c.toNat + 32 else c.toNat := by
  unfold goLowerChar
  by_cases h : 65 ≤ c.toNat ∧ c.toNat ≤ 90
  · rw [if_pos h, if_pos h, charToNat_ofNat_lt]
    omega
  · rw [if_neg h, if_neg h]

theorem goLowerChar_of_not (d : Char) (hd : ¬(65 ≤ d.toNat ∧ d.toNat ≤ 90)) :
    goLowerChar d = d := by
  rw [goLowerChar, if_neg hd]

theorem goLowerChar_idem (c : Char) :
    goLowerChar (goLowerChar c) = goLowerChar c := by
  by_cases h : 65 ≤ c.toNat ∧ c.toNat ≤ 90
  · apply goLowerChar_of_not
    rw [goLowerChar_toNat, if_pos h]
    omega
  · rw [goLowerChar_of_not c h, goLowerChar_of_not c h]

theorem list_any_congr {α : Type} (l : List α) (f g : α → Bool)
    (h : ∀ a ∈ l, f a = g a) : l.any f = l.any g := by
  induction l with
  | nil => rfl
  | cons x xs ih =>
    simp only [List.any_cons]
    rw [h x (List.mem_cons_self x xs),
      ih (fun a ha => h a (List.mem_cons_of_mem x ha))]

theorem goLowerChar_eq_iff (c d : Char)
    (hd : ¬(65 ≤ d.toNat ∧ d.toNat ≤ 90)) (hd2 : d.toNat < 97) :
    (goLowerChar c = d) ↔ (c = d) := by
  constructor
  · intro h
    by_cases hc : 65 ≤ c.toNat ∧ c.toNat ≤ 90
    · exfalso
      have := congrArg Char.toNat h
      rw [goLowerChar_toNat, if_pos hc] at this
      omega
    · rwa [goLowerChar, if_neg hc] at h
  · intro h
    subst h
    rw [goLowerChar, if_neg hd]

theorem goToLower_idem (s : String) : goToLower (goToLower s) = goToLower s := by
  unfold goToLower
  simp [List.map_map, Function.comp_def, goLowerChar_idem]

theorem isWildcardTag_goToLower (s : String) :
    isWildcardTag (goToLower s) = isWildcardTag s := by
  unfold isWildcardTag goToLower
  simp only [List.any_map]
  apply list_any_congr
  intro c _
  simp only [Function.comp_apply]
  have h1 : (goLowerChar c = '*') ↔ (c = '*') := goLowerChar_eq_iff c '*' (by decide) (by decide)
  have h2 : (goLowerChar c = '?') ↔ (c = '?') := goLowerChar_eq_iff c '?' (by decide) (by decide)
  have h3 : (goLowerChar c = '[') ↔ (c = '[') := goLowerChar_eq_iff c '[' (by decide) (by decide)
  have h4 : (goLowerChar c = ']') ↔ (c = ']') := goLowerChar_eq_iff c ']' (by decide) (by decide)
  simp [h1, h2, h3, h4]

theorem hasMatchingTag_map_goToLower (tags : List String) (pattern : String) :
    hasMatchingTag (tags.map goToLower) pattern = hasMatchingTag tags pattern := by
  unfold hasMatchingTag
  simp only [List.any_map]
  apply list_any_congr
  intro t _
  simp only [Function.comp_apply]
  by_cases hw : isWildcardTag pattern
  · simp only [hw, if_true, goToLower_idem]
  · simp only [hw, if_false, goEqualFold, goToLower_idem]

theorem hasMatchingTag_goToLower_pattern (tags : List String) (pattern : String) :
    hasMatchingTag tags (goToLower pattern) = hasMatchingTag tags pattern := by
  unfold hasMatchingTag
  rw [isWildcardTag_goToLower]
  apply list_any_congr
  intro t _
  by_cases hw : isWildcardTag pattern
  · simp only [hw, if_true, goToLower_idem]
  · simp only [hw, if_false, goEqualFold, goToLower_idem]

/-! ### Deduplication -/

theorem mem_dedupeLoop (a : String) :
    ∀ (l seen : List String), a ∈ dedupeLoop seen l ↔ a ∈ l ∧ a ∉ seen := by
  intro l
  induction l with
  | nil => intro seen; simp [dedupeLoop]
  | cons x xs ih =>
    intro seen
    by_cases hx : x ∈ seen
    · rw [dedupeLoop, if_pos hx, ih]
      simp only [List.mem_cons]
      constructor
      · rintro ⟨h1, h2⟩
        exact ⟨Or.inr h1, h2⟩
      · rintro ⟨h1 | h1, h2⟩
        · exact absurd (h1 ▸ hx) h2
        · exact ⟨h1, h2⟩
    · rw [dedupeLoop, if_neg hx]
      simp only [List.mem_cons, ih, List.mem_cons]
      constructor
      · rintro (rfl | ⟨h1, h2⟩)
        · exact ⟨Or.inl rfl, hx⟩
        · exact ⟨Or.inr h1, fun hs => h2 (Or.inr hs)⟩
      · rintro ⟨rfl | h1, h2⟩
        · exact Or.inl rfl
        · by_cases hax : a = x
          · exact Or.inl hax
          · exact Or.inr ⟨h1, fun hs => by
              rcases hs with rfl | hs
              · exact hax rfl
              · exact h2 hs⟩

theorem dedupeLoop_congr :
    ∀ (l s1 s2 : List String), (∀ a, a ∈ s1 ↔ a ∈ s2) →
      dedupeLoop s1 l = dedupeLoop s2 l := by
  intro l
  induction l with
  | nil => intro s1 s2 _; rfl
  | cons x xs ih =>
    intro s1 s2 h
    by_cases hx : x ∈ s1
    · rw [dedupeLoop, if_pos hx, dedupeLoop, if_pos ((h x).mp hx)]
      exact ih s1 s2 h
    · rw [dedupeLoop, if_neg hx, dedupeLoop, if_neg (fun hc => hx ((h x).mpr hc))]
      rw [ih (x :: s1) (x :: s2) (fun a => by simp [List.mem_cons, h a])]

theorem dedupeLoop_append :
    ∀ (l1 l2 seen : List String),
      dedupeLoop seen (l1 ++ l2) =
        dedupeLoop seen l1 ++ dedupeLoop (l1 ++ seen) l2 := by
  intro l1
  induction l1 with
  | nil => intro l2 seen; simp [dedupeLoop]
  | cons x xs ih =>
    intro l2 seen
    by_cases hx : x ∈ seen
    · rw [List.cons_append, dedupeLoop, if_pos hx, dedupeLoop, if_pos hx, ih]
      congr 1
      exact dedupeLoop_congr l2 (xs ++ seen) (x :: xs ++ seen)
        (fun a => by
          simp only [List.mem_append, List.cons_append, List.mem_cons]
          constructor
          · rintro (h | h)
            · exact Or.inr (Or.inl h)
            · exact Or.inr (Or.inr h)
          · rintro (rfl | h | h)
            · exact Or.inr hx
            · exact Or.inl h
            · exact Or.inr h)
    · rw [List.cons_append, dedupeLoop, if_neg hx, dedupeLoop, if_neg hx, ih]
      rw [List.cons_append]
      congr 1
      congr 1
      exact dedupeLoop_congr l2 (xs ++ x :: seen) (x :: xs ++ seen)
        (fun a => by
          simp only [List.mem_append, List.mem_cons, List.cons_append]
          constructor
          · rintro (h | rfl | h)
            · exact Or.inr (Or.inl h)
            · exact Or.inl rfl
            · exact Or.inr (Or.inr h)
          · rintro (rfl | h | h)
            · exact Or.inr (Or.inl rfl)
            · exact Or.inl h
            · exact Or.inr (Or.inr h))

theorem dedupeLoop_idem :
    ∀ (l s1 s2 : List String), (∀ x, x ∈ s2 → x ∈ s1) →
      dedupeLoop s1 (dedupeLoop s2 l) = dedupeLoop s1 l := by
  intro l
  induction l with
  | nil => intro s1 s2 _; rfl
  | cons x xs ih =>
    intro s1 s2 h
    by_cases h2 : x ∈ s2
    · rw [dedupeLoop, if_pos h2, dedupeLoop, if_pos (h x h2)]
      exact ih s1 s2 h
    · rw [dedupeLoop, if_neg h2]
      by_cases h1 : x ∈ s1
      · rw [dedupeLoop, if_pos h1, dedupeLoop, if_pos h1]
        exact ih s1 (x :: s2) (fun y hy => by
          rcases List.mem_cons.mp hy with hyx | hy
          · rw [hyx]; exact h1
          · exact h y hy)
      · rw [dedupeLoop, if_neg h1, dedupeLoop, if_neg h1]
        congr 1
        exact ih (x :: s1) (x :: s2) (fun y hy => by
          rcases List.mem_cons.mp hy with hyx | hy
          · rw [hyx]; exact List.mem_cons_self x s1
          · exact List.mem_cons_of_mem x (h y hy))

theorem mem_dedupePreserveOrder (a : String) (l : List String) :
    a ∈ dedupePreserveOrder l ↔ a ∈ l := by
  rw [dedupePreserveOrder, mem_dedupeLoop]
  simp

theorem dedupe_append_left (a b : List String) :
    dedupePreserveOrder (dedupePreserveOrder a ++ b) =
      dedupePreserveOrder (a ++ b) := by
  unfold dedupePreserveOrder
  rw [dedupeLoop_append, dedupeLoop_append]
  rw [dedupeLoop_idem a [] [] (fun x hx => hx)]
  congr 1
  exact dedupeLoop_congr b (dedupeLoop [] a ++ []) (a ++ [])
    (fun x => by
      simp only [List.append_nil]
      exact mem_dedupePreserveOrder x a)

theorem dedupe_append_right (a b : List String) :
    dedupePreserveOrder (a ++ dedupePreserveOrder b) =
      dedupePreserveOrder (a ++ b) := by
  unfold dedupePreserveOrder
  rw [dedupeLoop_append, dedupeLoop_append]
  congr 1
  exact dedupeLoop_idem b (a ++ []) [] (fun y hy => absurd hy (List.not_mem_nil y))

theorem mergeFull_true_eq (a b : List String) :
    mergeFull a b true = dedupePreserveOrder (a ++ b) := by
  show dedupePreserveOrder (dedupePreserveOrder a ++ dedupePreserveOrder b) = _
  rw [dedupe_append_left, dedupe_append_right]

/-! ### Claims about the tag matcher -/

/-- Claim C2: an entry with no explicit tags field
(`IsExplicitlyTagged = false`) and an empty effective tag set passes
`shouldIncludePath` for every tag filter, including filters whose
exclude conditions would match everything. -/
theorem c2_untagged_immunity (filter : TagFilter) :
    shouldIncludePath [] false filter = true := rfl

/-- Claim C6: an empty condition list never matches, for every path tag
set, so an absent include filter is distinguishable from a specified
but unmet one. -/
theorem c6_empty_conditions_never_match (pathTags : List String) :
    matchesTagConditions pathTags [] = false := rfl

/-- Claim C3: for every non-empty path tag set and every filter whose
include and exclude conditions both match the tag set,
`shouldIncludePath` returns false — exclude dominates. -/
theorem c3_exclude_dominance (pathTags : List String)
    (isExplicitlyTagged : Bool) (filter : TagFilter)
    (hne : pathTags ≠ [])
    (hinc : matchesTagConditions pathTags filter.Include = true)
    (hexc : matchesTagConditions pathTags filter.Exclude = true) :
    shouldIncludePath pathTags isExplicitlyTagged filter = false := by
  have h1 : pathTags.isEmpty = false := by
    cases pathTags with
    | nil => exact absurd rfl hne
    | cons a l => rfl
  have h2 : filter.Exclude.isEmpty = false := by
    cases hE : filter.Exclude with
    | nil =>
      rw [hE] at hexc
      exact absurd hexc (by rw [matchesTagConditions]; simp)
    | cons g gs => rfl
  simp [shouldIncludePath, h1, h2, hexc]

/-- Witness for C3 at a concrete input. -/
theorem c3_exclude_dominance_witness :
    shouldIncludePath ["gaming"] true ⟨[["gaming"]], [["gaming"]]⟩ = false :=
  c3_exclude_dominance ["gaming"] true ⟨[["gaming"]], [["gaming"]]⟩
    (by decide) (by decide) (by decide)

/-- Claim C4: tag matching is case-insensitive for literal and wildcard
filter tags, a wildcard filter tag being evaluated as a glob pattern
against each literal path tag; in particular the pattern `work_*`
matches every tag set containing `WORK_PROD` or `Work_Dev`. -/
theorem c4_wildcard_case_insensitivity :
    (∀ pathTags, "WORK_PROD" ∈ pathTags →
        hasMatchingTag pathTags "work_*" = true) ∧
    (∀ pathTags, "Work_Dev" ∈ pathTags →
        hasMatchingTag pathTags "work_*" = true) ∧
    (∀ pathTags pattern,
        hasMatchingTag (pathTags.map goToLower) pattern =
          hasMatchingTag pathTags pattern) ∧
    (∀ pathTags pattern,
        hasMatchingTag pathTags (goToLower pattern) =
          hasMatchingTag pathTags pattern) := by
  refine ⟨?_, ?_, hasMatchingTag_map_goToLower, hasMatchingTag_goToLower_pattern⟩
  · intro pathTags hmem
    rw [hasMatchingTag, List.any_eq_true]
    exact ⟨"WORK_PROD", hmem, by decide⟩
  · intro pathTags hmem
    rw [hasMatchingTag, List.any_eq_true]
    exact ⟨"Work_Dev", hmem, by decide⟩

/-- Witness for C4 at a concrete input. -/
theorem c4_wildcard_case_insensitivity_witness :
    hasMatchingTag ["audio", "WORK_PROD"] "work_*" = true :=
  c4_wildcard_case_insensitivity.1 ["audio", "WORK_PROD"] (by decide)

/-- Claim C8: merging with dedup is associative — both bracketings of a
three-way merge equal the concatenation deduplicated by first
occurrence — and every config-side element of the output precedes every
element that is not in the config list. -/
theorem c8_merge_dedup_assoc (A B C : List String) :
    mergeFull (mergeFull A B true) C true =
        mergeFull A (mergeFull B C true) true ∧
    mergeFull (mergeFull A B true) C true =
        dedupePreserveOrder (A ++ B ++ C) ∧
    ∃ rest, mergeFull (mergeFull A B true) C true =
        dedupePreserveOrder A ++ rest ∧ ∀ x ∈ rest, x ∉ A := by
  have hL : mergeFull (mergeFull A B true) C true =
      dedupePreserveOrder (A ++ B ++ C) := by
    rw [mergeFull_true_eq, mergeFull_true_eq, dedupe_append_left]
  have hR : mergeFull A (mergeFull B C true) true =
      dedupePreserveOrder (A ++ (B ++ C)) := by
    rw [mergeFull_true_eq, mergeFull_true_eq, dedupe_append_right]
  refine ⟨?_, hL, ?_⟩
  · rw [hL, hR, List.append_assoc]
  · refine ⟨dedupeLoop (A ++ []) (B ++ C), ?_, ?_⟩
    · rw [hL, List.append_assoc]
      show dedupeLoop [] (A ++ (B ++ C)) = dedupeLoop [] A ++ _
      rw [dedupeLoop_append]
    · intro x hx
      have := (mem_dedupeLoop x (B ++ C) (A ++ [])).mp hx
      intro hxa
      exact this.2 (by simp [hxa])

/-! ### Claim C5: filter expression parsing -/

theorem parseAndGroup_valid (filter : String) :
    ∀ (ts g : List String), parseAndGroup filter ts = .ok g →
      ∀ t ∈ g, validateTag t = .ok () := by
  intro ts
  induction ts with
  | nil =>
    intro g hg t ht
    rw [parseAndGroup] at hg
    cases hg
    exact absurd ht (List.not_mem_nil t)
  | cons t0 rest ih =>
    intro g hg t ht
    rw [parseAndGroup] at hg
    by_cases he : goTrimSpace t0 = ""
    · rw [if_pos he] at hg
      cases hg
    · rw [if_neg he] at hg
      cases hv : validateTag (goTrimSpace t0) with
      | error e => rw [hv] at hg; cases hg
      | ok u =>
        rw [hv] at hg
        cases hr : parseAndGroup filter rest with
        | error e => rw [hr] at hg; cases hg
        | ok g2 =>
          rw [hr] at hg
          cases hg
          rcases List.mem_cons.mp ht with h1 | h1
          · rw [h1, hv]
          · exact ih g2 hr t h1

theorem parseOrGroups_valid (filter : String) :
    ∀ (gs : List String) (groups : List (List String)),
      parseOrGroups filter gs = .ok groups →
      ∀ g ∈ groups, g ≠ [] ∧ ∀ t ∈ g, validateTag t = .ok () := by
  intro gs
  induction gs with
  | nil =>
    intro groups hg g hmem
    rw [parseOrGroups] at hg
    cases hg
    exact absurd hmem (List.not_mem_nil g)
  | cons g0 rest ih =>
    intro groups hg g hmem
    rw [parseOrGroups] at hg
    by_cases he : goTrimSpace g0 = ""
    · rw [if_pos he] at hg
      exact ih groups hg g hmem
    · rw [if_neg he] at hg
      cases ha : parseAndGroup filter (goSplit (goTrimSpace g0) '+') with
      | error e => rw [ha] at hg; cases hg
      | ok andGroup =>
        rw [ha] at hg
        cases hr : parseOrGroups filter rest with
        | error e => rw [hr] at hg; cases hg
        | ok groups2 =>
          rw [hr] at hg
          cases hg
          by_cases hae : andGroup.isEmpty
          · rw [if_pos hae] at hmem
            exact ih groups2 hr g hmem
          · rw [if_neg hae] at hmem
            rcases List.mem_cons.mp hmem with h1 | h1
            · subst h1
              refine ⟨fun hc => hae (by rw [hc]; rfl), ?_⟩
              exact parseAndGroup_valid filter _ g ha
            · exact ih groups2 hr g h1

/-- Claim C5: `parseTagFilter` splits on `,` into OR groups and on `+`
into AND members; trimmed-empty OR segments are skipped silently, an
empty AND segment is an error, and a successful parse yields only
non-empty groups of tags that passed validation. -/
theorem c5_parse_filter_expression :
    (∀ s groups, parseTagFilter s = .ok groups →
        ∀ g ∈ groups, g ≠ [] ∧ ∀ t ∈ g, validateTag t = .ok ()) ∧
    parseTagFilter "home,work+server" = .ok [["home"], ["work", "server"]] ∧
    parseTagFilter "home, ,dev" = .ok [["home"], ["dev"]] ∧
    (∃ e, parseTagFilter "home+" = .error e) ∧
    (∃ e, parseTagFilter "+dev" = .error e) := by
  refine ⟨?_, rfl, rfl, ⟨_, rfl⟩, ⟨_, rfl⟩⟩
  intro s groups hok g hmem
  rw [parseTagFilter] at hok
  by_cases hs : s = ""
  · rw [if_pos hs] at hok
    cases hok
    exact absurd hmem (List.not_mem_nil g)
  · rw [if_neg hs] at hok
    exact parseOrGroups_valid s (goSplit s ',') groups hok g hmem

/-- Witness for C5 at a concrete input. -/
theorem c5_parse_filter_expression_witness :
    (["work", "server"] ≠ [] ∧
      ∀ t ∈ ["work", "server"], validateTag t = .ok ()) :=
  c5_parse_filter_expression.1 "home,work+server" [["home"], ["work", "server"]]
    rfl ["work", "server"] (by decide)

/-! ### Claim C7: config-side prune semantics -/

/-- Claim C7: under prune `pathuni` or `all` the resolved config list
contains exactly the paths of `Included` statuses; under `none` or
`system` it contains exactly the paths of `PassesFilter` statuses
regardless of existence, so a filter-passing entry that is missing on
disk still appears. -/
theorem c7_config_prune_semantics (sys : Sys) (cfg : Config)
    (platform shell : String) (tagFilter : TagFilter) (prune : String)
    (sts : List PathStatus) (n : Nat) (out : List String)
    (hdet : EvaluateConfigDetailed sys cfg platform shell tagFilter =
      .ok (sts, n))
    (hres : resolvePathuniPaths sys cfg platform shell tagFilter prune =
      .ok out) :
    ((prune = "pathuni" ∨ prune = "all") →
      ∀ p, p ∈ out ↔ ∃ st ∈ sts, st.Included = true ∧ st.Path = p) ∧
    ((prune = "none" ∨ prune = "system") →
      ∀ p, p ∈ out ↔ ∃ st ∈ sts, st.PassesFilter = true ∧ st.Path = p) := by
  rw [resolvePathuniPaths, hdet] at hres
  cases hres
  constructor
  · intro hp p
    rw [mem_dedupePreserveOrder, prunePathStatuses, if_pos hp, List.mem_map]
    constructor
    · rintro ⟨st, hst, rfl⟩
      have := List.mem_filter.mp hst
      exact ⟨st, this.1, by simpa using this.2, rfl⟩
    · rintro ⟨st, hst, hinc, rfl⟩
      exact ⟨st, List.mem_filter.mpr ⟨hst, by simpa using hinc⟩, rfl⟩
  · intro hp p
    have hnp : ¬(prune = "pathuni" ∨ prune = "all") := by
      rcases hp with rfl | rfl <;> simp
    rw [mem_dedupePreserveOrder, prunePathStatuses, if_neg hnp, if_pos hp,
      List.mem_map]
    constructor
    · rintro ⟨st, hst, rfl⟩
      have := List.mem_filter.mp hst
      exact ⟨st, this.1, by simpa using this.2, rfl⟩
    · rintro ⟨st, hst, hpf, rfl⟩
      exact ⟨st, List.mem_filter.mpr ⟨hst, by simpa using hpf⟩, rfl⟩

/-- Witness for C7: one missing-but-filter-passing entry survives under
prune `none`. -/
theorem c7_config_prune_semantics_witness :
    "/a" ∈ ["/a"] ↔ ∃ st ∈ [(⟨"/a", [], false, false, true⟩ : PathStatus)],
      st.PassesFilter = true ∧ st.Path = "/a" :=
  (c7_config_prune_semantics
    ⟨id, id, fun _ => FsObj.missing, [], []⟩
    ⟨⟨[], [PathItem.str "/a"], none⟩, ⟨[], [], none⟩, ⟨[], [], none⟩⟩
    "Linux" "bash" ⟨[], []⟩ "none"
    [⟨"/a", [], false, false, true⟩] 0 ["/a"] rfl rfl).2
    (Or.inl rfl) "/a"

/-! ### Claim C9: defer mode validity -/

/-- Claim C9: with defer enabled, a scope other than `full` or a prune
policy of `system` or `all` is rejected with an error, and the outcome
does not depend on the filesystem or configuration (no path evaluation
is involved). -/
theorem c9_defer_mode_validity
    (osName shellName : String) (tagFilter : TagFilter)
    (scope prune : String)
    (h : scope ≠ "full" ∨ prune = "system" ∨ prune = "all")
    (sys1 sys2 : Sys) (cfg1 cfg2 : Config) :
    (∃ msg, runInit sys1 cfg1 osName shellName tagFilter scope prune true =
      .error msg) ∧
    runInit sys1 cfg1 osName shellName tagFilter scope prune true =
      runInit sys2 cfg2 osName shellName tagFilter scope prune true := by
  cases hos : osIsValid osName with
  | false =>
    refine ⟨⟨"Unsupported OS " ++ osName, ?_⟩, ?_⟩ <;> simp [runInit, hos]
  | true =>
    cases hsh : shellIsValid shellName with
    | false =>
      refine ⟨⟨"Unsupported shell " ++ shellName, ?_⟩, ?_⟩ <;>
        simp [runInit, hos, hsh]
    | true =>
      cases hvs : isValidScope scope with
      | false =>
        refine ⟨⟨"Error: Invalid scope option " ++ scope ++
          ". Use system, pathuni, or full", ?_⟩, ?_⟩ <;>
          simp [runInit, hos, hsh, hvs]
      | true =>
        cases hvp : isValidPrune prune with
        | false =>
          refine ⟨⟨"Error: Invalid prune option " ++ prune ++
            ". Use none, pathuni, system, or all", ?_⟩, ?_⟩ <;>
            simp [runInit, hos, hsh, hvs, hvp]
        | true =>
          by_cases hsc : scope = "full"
          · have hp : prune = "system" ∨ prune = "all" := by
              rcases h with hc | hp | hp
              · exact absurd hsc hc
              · exact Or.inl hp
              · exact Or.inr hp
            have hpb : (prune = "system" || prune = "all") = true := by
              rcases hp with rfl | rfl <;> simp
            subst hsc
            refine ⟨⟨"Error: --prune=" ++ prune ++
              " is incompatible with --defer-env (system PATH is not expanded)",
              ?_⟩, ?_⟩ <;>
              simp [runInit, hos, hsh, hvs, hvp, hpb]
          · refine ⟨⟨"Error: --defer-env is only valid with --scope=full",
              ?_⟩, ?_⟩ <;>
              simp [runInit, hos, hsh, hvs, hvp, hsc]

/-- Witness for C9 at a concrete input: defer with scope `pathuni`. -/
theorem c9_defer_mode_validity_witness :
    (∃ msg, runInit ⟨id, id, fun _ => FsObj.missing, [], []⟩
        ⟨⟨[], [], none⟩, ⟨[], [], none⟩, ⟨[], [], none⟩⟩
        "macOS" "bash" ⟨[], []⟩ "pathuni" "none" true = .error msg) ∧
    runInit ⟨id, id, fun _ => FsObj.missing, [], []⟩
        ⟨⟨[], [], none⟩, ⟨[], [], none⟩, ⟨[], [], none⟩⟩
        "macOS" "bash" ⟨[], []⟩ "pathuni" "none" true =
      runInit ⟨id, id, fun _ => FsObj.dir, ["/x"], ["/y"]⟩
        ⟨⟨["dev"], [PathItem.str "/a"], none⟩, ⟨[], [], none⟩, ⟨[], [], none⟩⟩
        "macOS" "bash" ⟨[], []⟩ "pathuni" "none" true :=
  c9_defer_mode_validity "macOS" "bash" ⟨[], []⟩ "pathuni" "none"
    (Or.inl (by decide))
    ⟨id, id, fun _ => FsObj.missing, [], []⟩
    ⟨id, id, fun _ => FsObj.dir, ["/x"], ["/y"]⟩
    ⟨⟨[], [], none⟩, ⟨[], [], none⟩, ⟨[], [], none⟩⟩
    ⟨⟨["dev"], [PathItem.str "/a"], none⟩, ⟨[], [], none⟩, ⟨[], [], none⟩⟩

/-! ### Claim C1: existence precedes filtering in skip classification -/

theorem processEntry_reportInv (sys : Sys) (tagFilter : TagFilter)
    (tags : List String) (r : EvaluationResult) (e : PathEntry)
    (hS : ∀ sp ∈ r.SkippedPaths, sys.stat sp.Path = FsObj.missing →
      sp.Reasons = [⟨"not_found", "not found"⟩])
    (hI : ∀ p ∈ r.IncludedPaths, sys.stat p ≠ FsObj.missing) :
    (∀ sp ∈ (processEntryWithReasons sys tagFilter tags r e).SkippedPaths,
      sys.stat sp.Path = FsObj.missing →
        sp.Reasons = [⟨"not_found", "not found"⟩]) ∧
    (∀ p ∈ (processEntryWithReasons sys tagFilter tags r e).IncludedPaths,
      sys.stat p ≠ FsObj.missing) := by
  simp only [processEntryWithReasons]
  by_cases hstat : sys.stat (sys.expandEnv e.Path) = FsObj.missing
  · rw [if_pos hstat]
    refine ⟨?_, ?_⟩
    · intro sp hsp hmiss
      simp only [List.mem_append, List.mem_singleton] at hsp
      rcases hsp with hsp | rfl
      · exact hS sp hsp hmiss
      · rfl
    · intro p hp
      exact hI p hp
  · rw [if_neg hstat]
    by_cases hre :
      (getPathSkipReasons (e.GetEffectiveTags tags) e.IsExplicitlyTagged
        tagFilter).isEmpty
    · rw [if_pos hre]
      refine ⟨?_, ?_⟩
      · intro sp hsp hmiss
        exact hS sp hsp hmiss
      · intro p hp
        simp only [List.mem_append, List.mem_singleton] at hp
        rcases hp with hp | rfl
        · exact hI p hp
        · exact hstat
    · rw [if_neg hre]
      refine ⟨?_, ?_⟩
      · intro sp hsp hmiss
        simp only [List.mem_append, List.mem_singleton] at hsp
        rcases hsp with hsp | rfl
        · exact hS sp hsp hmiss
        · exact absurd hmiss hstat
      · intro p hp
        exact hI p hp

theorem foldl_reportInv (sys : Sys) (tagFilter : TagFilter)
    (tags : List String) :
    ∀ (entries : List PathEntry) (r : EvaluationResult),
      ((∀ sp ∈ r.SkippedPaths, sys.stat sp.Path = FsObj.missing →
        sp.Reasons = [⟨"not_found", "not found"⟩]) ∧
       (∀ p ∈ r.IncludedPaths, sys.stat p ≠ FsObj.missing)) →
      ((∀ sp ∈ (entries.foldl (processEntryWithReasons sys tagFilter tags)
          r).SkippedPaths,
        sys.stat sp.Path = FsObj.missing →
          sp.Reasons = [⟨"not_found", "not found"⟩]) ∧
       (∀ p ∈ (entries.foldl (processEntryWithReasons sys tagFilter tags)
          r).IncludedPaths,
        sys.stat p ≠ FsObj.missing)) := by
  intro entries
  induction entries with
  | nil => intro r hP; exact hP
  | cons e es ih =>
    intro r hP
    rw [List.foldl_cons]
    exact ih _ (processEntry_reportInv sys tagFilter tags r e hP.1 hP.2)

theorem processPlatform_reportInv (sys : Sys) (tagFilter : TagFilter)
    (pc : PlatformConfig) (name : String) (r r' : EvaluationResult)
    (h : processPlatformWithReasons sys tagFilter pc name r = .ok r')
    (hP : (∀ sp ∈ r.SkippedPaths, sys.stat sp.Path = FsObj.missing →
        sp.Reasons = [⟨"not_found", "not found"⟩]) ∧
      (∀ p ∈ r.IncludedPaths, sys.stat p ≠ FsObj.missing)) :
    (∀ sp ∈ r'.SkippedPaths, sys.stat sp.Path = FsObj.missing →
        sp.Reasons = [⟨"not_found", "not found"⟩]) ∧
    (∀ p ∈ r'.IncludedPaths, sys.stat p ≠ FsObj.missing) := by
  rw [processPlatformWithReasons] at h
  cases he : extractPathEntries pc.Paths (name ++ ".paths") with
  | error e => simp only [he] at h; cases h
  | ok entries =>
    simp only [he] at h
    cases h
    exact foldl_reportInv sys tagFilter pc.Tags entries r hP

theorem withReasons_reportInv (sys : Sys) (cfg : Config)
    (platform shell : String) (tagFilter : TagFilter)
    (res : EvaluationResult)
    (h : EvaluateConfigWithReasons sys cfg platform shell tagFilter = .ok res) :
    (∀ sp ∈ res.SkippedPaths, sys.stat sp.Path = FsObj.missing →
        sp.Reasons = [⟨"not_found", "not found"⟩]) ∧
    (∀ p ∈ res.IncludedPaths, sys.stat p ≠ FsObj.missing) := by
  rw [EvaluateConfigWithReasons] at h
  cases hv : validateConfig cfg with
  | error e => simp only [hv] at h; cases h
  | ok u =>
    simp only [hv] at h
    cases hp1 : processPlatformWithReasons sys tagFilter cfg.All "all"
        ⟨[], [], 0⟩ with
    | error e => simp only [hp1] at h; cases h
    | ok r1 =>
      simp only [hp1] at h
      have h0 : (∀ sp ∈ (⟨[], [], 0⟩ : EvaluationResult).SkippedPaths,
          sys.stat sp.Path = FsObj.missing →
            sp.Reasons = [⟨"not_found", "not found"⟩]) ∧
          (∀ p ∈ (⟨[], [], 0⟩ : EvaluationResult).IncludedPaths,
            sys.stat p ≠ FsObj.missing) := by
        constructor
        · intro sp hsp
          exact absurd hsp (List.not_mem_nil sp)
        · intro p hp
          exact absurd hp (List.not_mem_nil p)
      have hP1 := processPlatform_reportInv sys tagFilter cfg.All "all"
        ⟨[], [], 0⟩ r1 hp1 h0
      by_cases hm : platform = "macOS"
      · rw [if_pos hm] at h
        exact processPlatform_reportInv sys tagFilter cfg.MacOS "macos" r1
          res h hP1
      · rw [if_neg hm] at h
        by_cases hl : platform = "Linux"
        · rw [if_pos hl] at h
          exact processPlatform_reportInv sys tagFilter cfg.Linux "linux" r1
            res h hP1
        · rw [if_neg hl] at h
          cases h
          exact hP1

theorem processEntriesDetailed_fields (sys : Sys) (tagFilter : TagFilter)
    (entries : List PathEntry) (tags : List String) :
    ∀ st ∈ processEntriesDetailed sys tagFilter entries tags,
      st.Exists = decide (sys.stat st.Path = FsObj.dir) ∧
      st.Included = (st.Exists && st.PassesFilter) := by
  intro st hst
  rw [processEntriesDetailed] at hst
  rcases List.mem_map.mp hst with ⟨e, he, rfl⟩
  exact ⟨rfl, rfl⟩

theorem detailed_fields (sys : Sys) (cfg : Config) (platform shell : String)
    (tagFilter : TagFilter) (sts : List PathStatus) (n : Nat)
    (hdet : EvaluateConfigDetailed sys cfg platform shell tagFilter =
      .ok (sts, n)) :
    ∀ st ∈ sts, st.Exists = decide (sys.stat st.Path = FsObj.dir) ∧
      st.Included = (st.Exists && st.PassesFilter) := by
  rw [EvaluateConfigDetailed] at hdet
  cases hv : validateConfig cfg with
  | error e => simp only [hv] at hdet; cases hdet
  | ok u =>
    simp only [hv] at hdet
    cases he : extractPathEntries cfg.All.Paths "all section" with
    | error e => simp only [he] at hdet; cases hdet
    | ok allEntries =>
      simp only [he] at hdet
      by_cases hLin : platform = "Linux"
      · rw [if_pos hLin] at hdet
        cases he2 : extractPathEntries cfg.Linux.Paths "linux section" with
        | error e => simp only [he2] at hdet; cases hdet
        | ok entries =>
          simp only [he2] at hdet
          cases hdet
          intro st hst
          rcases List.mem_append.mp hst with hst2 | hst2
          · rcases List.mem_append.mp hst2 with hst3 | hst3
            · exact processEntriesDetailed_fields sys tagFilter allEntries
                cfg.All.Tags st hst3
            · exact processEntriesDetailed_fields sys tagFilter entries
                cfg.Linux.Tags st hst3
          · exact processEntriesDetailed_fields sys tagFilter _ cfg.Linux.Tags
              st hst2
      · rw [if_neg hLin] at hdet
        by_cases hMac : platform = "macOS"
        · rw [if_pos hMac] at hdet
          cases he2 : extractPathEntries cfg.MacOS.Paths "macos section" with
          | error e => simp only [he2] at hdet; cases hdet
          | ok entries =>
            simp only [he2] at hdet
            cases hdet
            intro st hst
            rcases List.mem_append.mp hst with hst2 | hst2
            · rcases List.mem_append.mp hst2 with hst3 | hst3
              · exact processEntriesDetailed_fields sys tagFilter allEntries
                  cfg.All.Tags st hst3
              · exact processEntriesDetailed_fields sys tagFilter entries
                  cfg.MacOS.Tags st hst3
            · exact processEntriesDetailed_fields sys tagFilter _ cfg.MacOS.Tags
                st hst2
        · rw [if_neg hMac] at hdet
          cases hdet
          intro st hst
          exact processEntriesDetailed_fields sys tagFilter allEntries
            cfg.All.Tags st hst

theorem classifyReport_notFound (sts : List PathStatus) :
    ∀ st ∈ sts, st.Included = false → st.Exists = false →
      st.Path ∈ (classifyReport sts).2.1 := by
  induction sts with
  | nil =>
    intro st hst
    exact absurd hst (List.not_mem_nil st)
  | cons s rest ih =>
    intro st hst hinc hex
    rcases List.mem_cons.mp hst with h1 | h1
    · subst h1
      simp only [classifyReport, hinc, hex]
      simp
    · have hmem := ih st h1 hinc hex
      simp only [classifyReport]
      cases hI : s.Included
      · cases hE : s.Exists <;> simp_all
      · simp_all

theorem classifyReport_filtered (sts : List PathStatus) :
    ∀ p ∈ (classifyReport sts).2.2,
      ∃ st ∈ sts, st.Path = p ∧ st.Exists = true := by
  induction sts with
  | nil =>
    intro p hp
    exact absurd hp (List.not_mem_nil p)
  | cons s rest ih =>
    intro p hp
    simp only [classifyReport] at hp
    cases hI : s.Included
    · cases hE : s.Exists
      · rw [hI, hE] at hp
        simp only [Bool.not_false, if_true, if_false] at hp
        rcases ih p hp with ⟨st, hst, hrest⟩
        exact ⟨st, List.mem_cons_of_mem s hst, hrest⟩
      · rw [hI, hE] at hp
        simp only [Bool.not_true, if_false] at hp
        rcases List.mem_cons.mp hp with h1 | h1
        · exact ⟨s, List.mem_cons_self s rest, h1.symm, hE⟩
        · rcases ih p h1 with ⟨st, hst, hrest⟩
          exact ⟨st, List.mem_cons_of_mem s hst, hrest⟩
    · rw [hI] at hp
      simp only [if_true] at hp
      rcases ih p hp with ⟨st, hst, hrest⟩
      exact ⟨st, List.mem_cons_of_mem s hst, hrest⟩

/-- Claim C1: existence takes precedence over filtering in skip
classification.  In `EvaluateConfigWithReasons` a skipped entry whose
path is absent from disk is reported with the single reason
`not found` (never a tags reason), and no absent path is included; in
the `PrintEvaluationReport` classification of the detailed statuses,
every `Exists = false` status lands in the not-found list and never in
the filtered-by-tags list. -/
theorem c1_existence_precedes_filter (sys : Sys) (cfg : Config)
    (platform shell : String) (tagFilter : TagFilter)
    (res : EvaluationResult) (sts : List PathStatus) (n : Nat)
    (hres : EvaluateConfigWithReasons sys cfg platform shell tagFilter =
      .ok res)
    (hdet : EvaluateConfigDetailed sys cfg platform shell tagFilter =
      .ok (sts, n)) :
    (∀ sp ∈ res.SkippedPaths, sys.stat sp.Path = FsObj.missing →
        sp.Reasons = [⟨"not_found", "not found"⟩]) ∧
    (∀ p ∈ res.IncludedPaths, sys.stat p ≠ FsObj.missing) ∧
    (∀ st ∈ sts, st.Exists = false →
        st.Path ∈ (classifyReport sts).2.1 ∧
        st.Path ∉ (classifyReport sts).2.2) := by
  have hinv := withReasons_reportInv sys cfg platform shell tagFilter res hres
  refine ⟨hinv.1, hinv.2, ?_⟩
  intro st hst hex
  have hfields := detailed_fields sys cfg platform shell tagFilter sts n hdet
  have hinc : st.Included = false := by
    rw [(hfields st hst).2, hex]
    rfl
  refine ⟨classifyReport_notFound sts st hst hinc hex, ?_⟩
  intro hmem
  rcases classifyReport_filtered sts st.Path hmem with ⟨st2, hst2, hpath, hex2⟩
  have h1 := (hfields st hst).1
  have h2 := (hfields st2 hst2).1
  rw [hpath] at h2
  rw [← h2] at h1
  rw [hex, hex2] at h1
  cases h1

/-- Witness for C1: one missing entry and one existing entry filtered
by tags. -/
theorem c1_existence_precedes_filter_witness :
    (∀ sp ∈ (⟨[], [⟨"/gone", [⟨"not_found", "not found"⟩]⟩], 1⟩ :
        EvaluationResult).SkippedPaths,
      (fun p => if p = "/gone" then FsObj.missing else FsObj.dir) sp.Path =
          FsObj.missing →
        sp.Reasons = [⟨"not_found", "not found"⟩]) ∧
    (∀ p ∈ (⟨[], [⟨"/gone", [⟨"not_found", "not found"⟩]⟩], 1⟩ :
        EvaluationResult).IncludedPaths,
      (fun p => if p = "/gone" then FsObj.missing else FsObj.dir) p ≠
        FsObj.missing) ∧
    (∀ st ∈ [(⟨"/gone", [], false, false, true⟩ : PathStatus)],
      st.Exists = false →
        st.Path ∈ (classifyReport
          [(⟨"/gone", [], false, false, true⟩ : PathStatus)]).2.1 ∧
        st.Path ∉ (classifyReport
          [(⟨"/gone", [], false, false, true⟩ : PathStatus)]).2.2) :=
  c1_existence_precedes_filter
    ⟨id, id, fun p => if p = "/gone" then FsObj.missing else FsObj.dir, [], []⟩
    ⟨⟨[], [PathItem.str "/gone"], none⟩, ⟨[], [], none⟩, ⟨[], [], none⟩⟩
    "Linux" "bash" ⟨[], []⟩
    ⟨[], [⟨"/gone", [⟨"not_found", "not found"⟩]⟩], 1⟩
    [⟨"/gone", [], false, false, true⟩] 0 rfl rfl

/-! ### Claim C10: agreement of the two evaluators -/

theorem append3_ne_empty (a m b : String) (hm : m.data ≠ []) :
    a ++ m ++ b ≠ "" := by
  intro hc
  have hd := congrArg String.data hc
  rw [String.data_append, String.data_append] at hd
  simp only [List.append_eq_nil] at hd
  exact hm hd.1.2

theorem append2_ne_empty (a b : String) (ha : a.data ≠ []) : a ++ b ≠ "" := by
  intro hc
  have hd := congrArg String.data hc
  rw [String.data_append] at hd
  simp only [List.append_eq_nil] at hd
  exact ha hd.1

theorem matchesTagConditions_eq_any (pathTags : List String)
    (conds : List (List String)) :
    matchesTagConditions pathTags conds =
      conds.any fun g => g.all fun t => hasMatchingTag pathTags t := by
  cases conds <;> rfl

theorem getIncludeFailureReason_empty_iff (pathTags : List String)
    (incl : List (List String)) :
    (getIncludeFailureReason pathTags incl = "") ↔
      matchesTagConditions pathTags incl = true := by
  rw [getIncludeFailureReason]
  by_cases hm : matchesTagConditions pathTags incl = true
  · rw [if_pos hm]
    simp [hm]
  · rw [if_neg hm]
    constructor
    · intro h
      exfalso
      cases pathTags with
      | nil => exact append2_ne_empty "no tags != " _ (by decide) h
      | cons t ts => exact append3_ne_empty _ " != " _ (by decide) h
    · intro h
      exact absurd h hm

theorem hasMatchingTag_singleton (pt : String) (pattern : String) :
    hasMatchingTag [pt] pattern =
      (if isWildcardTag pattern then
        match filepathMatch (goToLower pattern) (goToLower pt) with
        | .ok true => true
        | _ => false
      else goEqualFold pattern pt) := by
  rw [hasMatchingTag]
  simp [List.any_cons]

theorem getExcludeReason_ne_empty_iff (pathTags : List String) :
    ∀ (excl : List (List String)), (∀ g ∈ excl, g ≠ []) →
      ((getExcludeReason pathTags excl ≠ "") ↔
        matchesTagConditions pathTags excl = true) := by
  intro excl
  induction excl with
  | nil =>
    intro _
    rw [getExcludeReason, matchesTagConditions_eq_any]
    simp
  | cons g rest ih =>
    intro hexcl
    have hg : g ≠ [] := hexcl g (List.mem_cons_self g rest)
    have hrest : ∀ g2 ∈ rest, g2 ≠ [] :=
      fun g2 h2 => hexcl g2 (List.mem_cons_of_mem g h2)
    rw [getExcludeReason]
    by_cases hall : (g.all fun t => hasMatchingTag pathTags t) = true
    · rw [if_pos hall]
      have hfp : ∃ pr, findExcludePair pathTags g = some pr := by
        cases hgc : g with
        | nil => exact absurd hgc hg
        | cons t g2 =>
          rw [hgc] at hall
          have ht : hasMatchingTag pathTags t = true := by
            rw [List.all_cons, Bool.and_eq_true] at hall
            exact hall.1
          rw [hasMatchingTag, List.any_eq_true] at ht
          rcases ht with ⟨pt, hptmem, hpt⟩
          cases hnone : findExcludePair pathTags g with
          | some pr => exact ⟨pr, by rw [hgc] at hnone; exact hnone⟩
          | none =>
            exfalso
            rw [findExcludePair, List.findSome?_eq_none_iff] at hnone
            have hinner := hnone pt hptmem
            rw [List.findSome?_eq_none_iff] at hinner
            have hcontr := hinner t (by rw [hgc]; exact List.mem_cons_self t g2)
            have hs : hasMatchingTag [pt] t = true := by
              rw [hasMatchingTag_singleton]
              exact hpt
            rw [if_pos hs] at hcontr
            cases hcontr
      rcases hfp with ⟨⟨pt, et⟩, hfp⟩
      rw [hfp]
      rw [matchesTagConditions_eq_any, List.any_cons, hall]
      have hne : pt ++ " = " ++ et ≠ "" := append3_ne_empty pt " = " et (by decide)
      simp [hne]
    · rw [if_neg hall]
      rw [ih hrest, matchesTagConditions_eq_any, matchesTagConditions_eq_any,
        List.any_cons]
      rw [Bool.eq_false_iff.mpr hall]
      simp

theorem getPathSkipReasons_empty_iff (pathTags : List String)
    (isExplicitlyTagged : Bool) (filter : TagFilter)
    (hexcl : ∀ g ∈ filter.Exclude, g ≠ []) :
    (getPathSkipReasons pathTags isExplicitlyTagged filter = []) ↔
      shouldIncludePath pathTags isExplicitlyTagged filter = true := by
  rw [getPathSkipReasons, shouldIncludePath]
  by_cases himm : (pathTags.isEmpty && !isExplicitlyTagged) = true
  · rw [if_pos himm, if_pos himm]
    simp
  · rw [if_neg himm, if_neg himm]
    have hB := getExcludeReason_ne_empty_iff pathTags filter.Exclude hexcl
    have hA := getIncludeFailureReason_empty_iff pathTags filter.Include
    by_cases hme : matchesTagConditions pathTags filter.Exclude = true
    · have hne : getExcludeReason pathTags filter.Exclude ≠ "" := hB.mpr hme
      have hEne : filter.Exclude.isEmpty = false := by
        cases hE : filter.Exclude with
        | nil =>
          rw [hE] at hme
          rw [matchesTagConditions_eq_any] at hme
          cases hme
        | cons a b => rfl
      simp [hne, hEne, hme]
    · have heq : getExcludeReason pathTags filter.Exclude = "" := by
        by_contra hc
        exact hme (hB.mp hc)
      by_cases hmi : matchesTagConditions pathTags filter.Include = true
      · have hieq : getIncludeFailureReason pathTags filter.Include = "" :=
          hA.mpr hmi
        simp [heq, hme, hmi, hieq]
      · by_cases hI : filter.Include.isEmpty
        · have hInil : filter.Include = [] := by
            cases hIc : filter.Include with
            | nil => rfl
            | cons a b => rw [hIc] at hI; cases hI
          simp [heq, hme, hI, hInil]
        · have hirne : getIncludeFailureReason pathTags filter.Include ≠ "" :=
            fun hc => hmi (hA.mp hc)
          simp [heq, hme, hmi, hI, hirne]

theorem validateTagsLoop_mono (c c2 : String) :
    ∀ (ts seen : List String), validateTagsLoop c seen ts = .ok () →
      validateTagsLoop c2 seen ts = .ok () := by
  intro ts
  induction ts with
  | nil => intro seen _; rfl
  | cons t rest ih =>
    intro seen h
    rw [validateTagsLoop] at h ⊢
    by_cases hdup : goToLower t ∈ seen
    · rw [if_pos hdup] at h
      cases h
    · rw [if_neg hdup] at h ⊢
      cases hv : validateTag t with
      | error e =>
        rw [hv] at h
        exact Except.noConfusion h
      | ok u =>
        rw [hv] at h
        exact ih (goToLower t :: seen) h

theorem validateTags_mono (tags : List String) (c c2 : String)
    (h : validateTags tags c = .ok ()) : validateTags tags c2 = .ok () := by
  rw [validateTags] at h ⊢
  by_cases he : tags.isEmpty
  · rw [if_pos he]
  · rw [if_neg he] at h ⊢
    exact validateTagsLoop_mono c c2 tags [] h

theorem extractPathEntries_mono (c c2 : String) :
    ∀ (items : List PathItem) (es : List PathEntry),
      extractPathEntries items c = .ok es →
      extractPathEntries items c2 = .ok es := by
  intro items
  induction items with
  | nil =>
    intro es h
    rw [extractPathEntries] at h ⊢
    exact h
  | cons item rest ih =>
    intro es h
    cases item with
    | str path =>
      rw [extractPathEntries] at h ⊢
      cases hr : extractPathEntries rest c with
      | error e => rw [hr] at h; cases h
      | ok es2 =>
        rw [hr] at h
        cases h
        rw [ih es2 hr]
    | obj path tags =>
      cases tags with
      | none =>
        rw [extractPathEntries] at h ⊢
        cases hr : extractPathEntries rest c with
        | error e => rw [hr] at h; cases h
        | ok es2 =>
          rw [hr] at h
          cases h
          rw [ih es2 hr]
      | some tl =>
        rw [extractPathEntries] at h ⊢
        cases hv : validateTags tl (c ++ " (path: " ++ path ++ ")") with
        | error e => rw [hv] at h; cases h
        | ok u =>
          rw [hv] at h
          rw [validateTags_mono tl (c ++ " (path: " ++ path ++ ")")
            (c2 ++ " (path: " ++ path ++ ")") hv]
          cases hr : extractPathEntries rest c with
          | error e => rw [hr] at h; cases h
          | ok es2 =>
            rw [hr] at h
            cases h
            rw [ih es2 hr]

theorem getShellSpecificPaths_nil (sys : Sys) (shell : String)
    (pc : PlatformConfig) (hsysp : sys.systemPaths = []) :
    getShellSpecificPaths sys shell pc = [] := by
  rw [getShellSpecificPaths]
  by_cases hs : shell = "powershell"
  · rw [if_pos hs]
    cases pc.PowerShell with
    | none => rfl
    | some sc =>
      by_cases hi : sc.IncludeSystemPaths
      · simp [hi, hsysp]
      · simp [hi]
  · rw [if_neg hs]

theorem processEntry_included_eq (sys : Sys) (tagFilter : TagFilter)
    (tags : List String) (r : EvaluationResult) (e : PathEntry)
    (hclean : ∀ s, sys.cleanPath (sys.expandEnv s) = sys.expandEnv s)
    (hfile : ∀ s, sys.stat s ≠ FsObj.file)
    (hexcl : ∀ g ∈ tagFilter.Exclude, g ≠ []) :
    (processEntryWithReasons sys tagFilter tags r e).IncludedPaths =
      r.IncludedPaths ++
        ((processEntriesDetailed sys tagFilter [e] tags).filter
          fun st => st.Included).map fun st => st.Path := by
  have hiff := getPathSkipReasons_empty_iff (e.GetEffectiveTags tags)
    e.IsExplicitlyTagged tagFilter hexcl
  simp only [processEntryWithReasons, processEntriesDetailed, List.map_cons,
    List.map_nil, hclean e.Path]
  by_cases hstat : sys.stat (sys.expandEnv e.Path) = FsObj.missing
  · rw [if_pos hstat]
    have hex : decide (sys.stat (sys.expandEnv e.Path) = FsObj.dir) = false := by
      rw [hstat]
      rfl
    simp [List.filter, hex]
  · rw [if_neg hstat]
    have hdir : sys.stat (sys.expandEnv e.Path) = FsObj.dir := by
      cases hc : sys.stat (sys.expandEnv e.Path) with
      | missing => exact absurd hc hstat
      | file => exact absurd hc (hfile (sys.expandEnv e.Path))
      | dir => rfl
    have hex : decide (sys.stat (sys.expandEnv e.Path) = FsObj.dir) = true := by
      rw [hdir]
      rfl
    by_cases hre : (getPathSkipReasons (e.GetEffectiveTags tags)
        e.IsExplicitlyTagged tagFilter).isEmpty
    · rw [if_pos hre]
      have hpass : shouldIncludePath (e.GetEffectiveTags tags)
          e.IsExplicitlyTagged tagFilter = true :=
        hiff.mp (List.isEmpty_iff.mp hre)
      simp [List.filter, hex, hpass]
    · rw [if_neg hre]
      have hpass : shouldIncludePath (e.GetEffectiveTags tags)
          e.IsExplicitlyTagged tagFilter = false := by
        cases hp : shouldIncludePath (e.GetEffectiveTags tags)
            e.IsExplicitlyTagged tagFilter
        · rfl
        · exact absurd (List.isEmpty_iff.mpr (hiff.mpr hp)) hre
      simp [List.filter, hex, hpass]

theorem foldl_included_eq (sys : Sys) (tagFilter : TagFilter)
    (tags : List String)
    (hclean : ∀ s, sys.cleanPath (sys.expandEnv s) = sys.expandEnv s)
    (hfile : ∀ s, sys.stat s ≠ FsObj.file)
    (hexcl : ∀ g ∈ tagFilter.Exclude, g ≠ []) :
    ∀ (entries : List PathEntry) (r : EvaluationResult),
      (entries.foldl (processEntryWithReasons sys tagFilter tags)
        r).IncludedPaths =
      r.IncludedPaths ++
        ((processEntriesDetailed sys tagFilter entries tags).filter
          fun st => st.Included).map fun st => st.Path := by
  intro entries
  induction entries with
  | nil =>
    intro r
    simp [processEntriesDetailed]
  | cons e es ih =>
    intro r
    rw [List.foldl_cons, ih]
    rw [processEntry_included_eq sys tagFilter tags r e hclean hfile hexcl]
    rw [List.append_assoc]
    congr 1
    have hsplit : processEntriesDetailed sys tagFilter (e :: es) tags =
        processEntriesDetailed sys tagFilter [e] tags ++
          processEntriesDetailed sys tagFilter es tags := by
      simp [processEntriesDetailed]
    rw [hsplit, List.filter_append, List.map_append]

theorem processPlatform_included_eq (sys : Sys) (tagFilter : TagFilter)
    (pc : PlatformConfig) (name name2 : String) (r r2 : EvaluationResult)
    (entries : List PathEntry)
    (hclean : ∀ s, sys.cleanPath (sys.expandEnv s) = sys.expandEnv s)
    (hfile : ∀ s, sys.stat s ≠ FsObj.file)
    (hexcl : ∀ g ∈ tagFilter.Exclude, g ≠ [])
    (hex : extractPathEntries pc.Paths name2 = .ok entries)
    (h : processPlatformWithReasons sys tagFilter pc name r = .ok r2) :
    r2.IncludedPaths = r.IncludedPaths ++
      ((processEntriesDetailed sys tagFilter entries pc.Tags).filter
        fun st => st.Included).map fun st => st.Path := by
  rw [processPlatformWithReasons] at h
  have hex2 : extractPathEntries pc.Paths (name ++ ".paths") = .ok entries :=
    extractPathEntries_mono name2 (name ++ ".paths") pc.Paths entries hex
  rw [hex2] at h
  cases h
  exact foldl_included_eq sys tagFilter pc.Tags hclean hfile hexcl entries r

/-- Amendment of claim C10 (see the counterexample below): the two
evaluators agree on the included paths — same paths, same order — once
the conditions that the code actually requires hold: no shell-injected
entries are present, every expanded path is already normalized, no
configured path resolves to a non-directory file, and the exclude
filter has no degenerate empty AND group (as guaranteed by
`parseTagFilter`). -/
theorem c10_evaluators_agree_amended (sys : Sys) (cfg : Config)
    (platform shell : String) (tagFilter : TagFilter)
    (res : EvaluationResult) (sts : List PathStatus) (n : Nat)
    (hsysp : sys.systemPaths = [])
    (hclean : ∀ s, sys.cleanPath (sys.expandEnv s) = sys.expandEnv s)
    (hfile : ∀ s, sys.stat s ≠ FsObj.file)
    (hexcl : ∀ g ∈ tagFilter.Exclude, g ≠ [])
    (hres : EvaluateConfigWithReasons sys cfg platform shell tagFilter =
      .ok res)
    (hdet : EvaluateConfigDetailed sys cfg platform shell tagFilter =
      .ok (sts, n)) :
    res.IncludedPaths =
      (sts.filter fun st => st.Included).map fun st => st.Path := by
  rw [EvaluateConfigWithReasons] at hres
  rw [EvaluateConfigDetailed] at hdet
  cases hv : validateConfig cfg with
  | error e =>
    rw [hv] at hres
    simp only [hv] at hdet
    cases hdet
  | ok u =>
    simp only [hv] at hres hdet
    cases heA : extractPathEntries cfg.All.Paths "all section" with
    | error e => simp only [heA] at hdet; cases hdet
    | ok allEntries =>
      simp only [heA] at hdet
      cases hp1 : processPlatformWithReasons sys tagFilter cfg.All "all"
          ⟨[], [], 0⟩ with
      | error e => simp only [hp1] at hres; cases hres
      | ok r1 =>
        simp only [hp1] at hres
        have hr1 : r1.IncludedPaths =
            ((processEntriesDetailed sys tagFilter allEntries
              cfg.All.Tags).filter fun st => st.Included).map
                fun st => st.Path := by
          have := processPlatform_included_eq sys tagFilter cfg.All "all"
            "all section" ⟨[], [], 0⟩ r1 allEntries hclean hfile hexcl heA hp1
          simpa using this
        by_cases hLin : platform = "Linux"
        · rw [if_pos hLin] at hdet
          have hnm : platform ≠ "macOS" := by rw [hLin]; decide
          rw [if_neg hnm, if_pos hLin] at hres
          cases heL : extractPathEntries cfg.Linux.Paths "linux section" with
          | error e => simp only [heL] at hdet; cases hdet
          | ok entries =>
            simp only [heL] at hdet
            rw [getShellSpecificPaths_nil sys shell cfg.Linux hsysp] at hdet
            simp only [List.map_nil] at hdet
            cases hdet
            have hres2 := processPlatform_included_eq sys tagFilter cfg.Linux
              "linux" "linux section" r1 res entries hclean hfile hexcl heL hres
            rw [hres2, hr1]
            rw [List.filter_append, List.map_append, List.filter_append,
              List.map_append]
            simp [processEntriesDetailed]
        · rw [if_neg hLin] at hdet
          by_cases hMac : platform = "macOS"
          · rw [if_pos hMac] at hres hdet
            cases heM : extractPathEntries cfg.MacOS.Paths "macos section" with
            | error e => simp only [heM] at hdet; cases hdet
            | ok entries =>
              simp only [heM] at hdet
              rw [getShellSpecificPaths_nil sys shell cfg.MacOS hsysp] at hdet
              simp only [List.map_nil] at hdet
              cases hdet
              have hres2 := processPlatform_included_eq sys tagFilter cfg.MacOS
                "macos" "macos section" r1 res entries hclean hfile hexcl heM
                hres
              rw [hres2, hr1]
              rw [List.filter_append, List.map_append, List.filter_append,
                List.map_append]
              simp [processEntriesDetailed]
          · rw [if_neg hMac] at hres hdet
            rw [if_neg hLin] at hres
            cases hdet
            cases hres
            exact hr1

/-- Witness for the amended C10 at a concrete input. -/
theorem c10_evaluators_agree_amended_witness :
    (⟨["/present"], [⟨"/gone", [⟨"not_found", "not found"⟩]⟩], 2⟩ :
      EvaluationResult).IncludedPaths =
      (([⟨"/present", [], true, true, true⟩,
          ⟨"/gone", [], false, false, true⟩] :
        List PathStatus).filter fun st => st.Included).map fun st => st.Path :=
  c10_evaluators_agree_amended
    ⟨id, id, fun p => if p = "/gone" then FsObj.missing else FsObj.dir, [], []⟩
    ⟨⟨[], [PathItem.str "/present", PathItem.str "/gone"], none⟩,
      ⟨[], [], none⟩, ⟨[], [], none⟩⟩
    "Linux" "bash" ⟨[], []⟩
    ⟨["/present"], [⟨"/gone", [⟨"not_found", "not found"⟩]⟩], 2⟩
    [⟨"/present", [], true, true, true⟩, ⟨"/gone", [], false, false, true⟩]
    0 rfl (fun s => rfl)
    (fun s => by
      by_cases h : s = "/gone" <;> simp [h])
    (fun g hg => absurd hg (List.not_mem_nil g))
    rfl rfl

/-- Counterexample to claim C10 as stated: with one configured entry
whose expanded path is a regular file, `EvaluateConfigWithReasons`
includes it (its existence test is a bare `os.Stat`) while
`EvaluateConfigDetailed` rejects it (its test requires a directory), so
the included lists differ. -/
theorem c10_evaluators_agree_counterexample :
    ∃ res sts n,
      EvaluateConfigWithReasons ⟨id, id, fun _ => FsObj.file, [], []⟩
        ⟨⟨[], [PathItem.str "/f"], none⟩, ⟨[], [], none⟩, ⟨[], [], none⟩⟩
        "Linux" "bash" ⟨[], []⟩ = .ok res ∧
      EvaluateConfigDetailed ⟨id, id, fun _ => FsObj.file, [], []⟩
        ⟨⟨[], [PathItem.str "/f"], none⟩, ⟨[], [], none⟩, ⟨[], [], none⟩⟩
        "Linux" "bash" ⟨[], []⟩ = .ok (sts, n) ∧
      res.IncludedPaths ≠
        (sts.filter fun st => st.Included).map fun st => st.Path :=
  ⟨⟨["/f"], [], 1⟩, [⟨"/f", [], false, false, true⟩], 0, rfl, rfl, by decide⟩

end Pathuni
